import Mathlib

/-!
Shallow embedding of the Spotfire timeline mod (src/index.ts): the vertical
slot packer, the card spacing resolver, the d3 partition used by the time
ruler, the onChange guard logic, the pointer handlers, the rectangle
intersection test, and the generalErrorHandler wrapper.

Pixel quantities are modelled as rationals; JavaScript number division by
zero (which yields a non-finite value) is modelled explicitly where it can
occur (Option, or the `value && width / value` guard that d3 itself uses).
-/

namespace Timeline

/-! ### Geometry primitives (src/index.ts lines 14-19, 450-458) -/

/-- `Rect` from src/index.ts: two corner points. -/
structure Rect where
  x1 : ℚ
  y1 : ℚ
  x2 : ℚ
  y2 : ℚ
  deriving DecidableEq, Repr

/-- `intersect` from src/index.ts lines 450-458: axis-aligned overlap test. -/
def intersect (first second : Rect) : Bool :=
  if first.x1 > second.x2 ∨ second.x1 > first.x2 then false
  else if first.y1 > second.y2 ∨ second.y1 > first.y2 then false
  else true

/-- Spec-side notion used by claim C7: `outer` fully contains `inner`. -/
def containsRect (outer inner : Rect) : Prop :=
  outer.x1 ≤ inner.x1 ∧ inner.x2 ≤ outer.x2 ∧ outer.y1 ≤ inner.y1 ∧ inner.y2 ≤ outer.y2

/-- Normalization performed in mouseUpHandler (lines 314-319): swap the
corners so that `x1 ≤ x2` and `y1 ≤ y2`. -/
def normalizeRect (r : Rect) : Rect :=
  ⟨min r.x1 r.x2, min r.y1 r.y2, max r.x1 r.x2, max r.y1 r.y2⟩

/-! ### Constants (src/index.ts lines 26-31) -/

def verticalSpaceBetweenCards : ℚ := 12.5
def horizontalSpaceBetweenCards : ℚ := 12.5
def rowsPerCard : ℚ := 2
def maxTimeSegments : ℕ := 2000

/-! ### Vertical slot packer (src/index.ts lines 112-138)

The loop body is

    let vp = 0;
    while (lastPosition.get(vp) != undefined && index - lastPosition.get(vp) < timeSegmentsPerCard) { vp++; }
    lastPosition.set(vp, index);
    maxStackedCards = vp + 1 > maxStackedCards ? vp + 1 : maxStackedCards;

`lastPosition` is a Map keyed by the consecutive integers 0,1,2,…
(the scan starts at 0 and never skips past the first undefined key, so the
key set stays an initial segment of ℕ); it is therefore embedded as a
`List ℤ` whose entry at position `l` is the recorded last time index of
lane `l`. -/

/-- The while loop: first lane (from 0 upward) whose entry is absent or at
distance at least `K` from `idx`. -/
def findLane (idx K : ℤ) : List ℤ → ℕ
  | [] => 0
  | last :: rest => if idx - last < K then findLane idx K rest + 1 else 0

/-- `lastPosition.set(vp, index)`; only called with `vp ≤ length`. -/
def setLane : List ℤ → ℕ → ℤ → List ℤ
  | [], _, idx => [idx]
  | _ :: rest, 0, idx => idx :: rest
  | l :: rest, n + 1, idx => l :: setLane rest n idx

/-- Per-cycle mutable state of the card-building pass. -/
structure PackState where
  lastPosition : List ℤ
  assignments : List (ℤ × ℕ)
  maxStackedCards : ℕ
  deriving DecidableEq, Repr

/-- One iteration of the forEach body for a row with time index `idx`. -/
def packStep (K : ℤ) (st : PackState) (idx : ℤ) : PackState :=
  { lastPosition := setLane st.lastPosition (findLane idx K st.lastPosition) idx
    assignments := st.assignments ++ [(idx, findLane idx K st.lastPosition)]
    maxStackedCards := max st.maxStackedCards (findLane idx K st.lastPosition + 1) }

/-- The whole forEach loop, from an arbitrary starting state. -/
def runPack (K : ℤ) (st : PackState) : List ℤ → PackState
  | [] => st
  | idx :: rest => runPack K (packStep K st idx) rest

/-- The card-building pass: process the events' time indices in row
iteration order starting from the empty map. -/
def packEvents (K : ℤ) (idxs : List ℤ) : PackState :=
  runPack K ⟨[], [], 0⟩ idxs

/-- Recursive view of the assignment trace, used in proofs. -/
def packLanes (K : ℤ) (last : List ℤ) : List ℤ → List (ℤ × ℕ)
  | [] => []
  | idx :: rest =>
      (idx, findLane idx K last) ::
        packLanes K (setLane last (findLane idx K last) idx) rest

/-- A lane is eligible for an event when its recorded last index is unset
or lies at least `K` below the event's index. -/
def laneEligible (last : List ℤ) (idx K : ℤ) (l : ℕ) : Prop :=
  ∀ v, last.get? l = some v → K ≤ idx - v

instance (last : List ℤ) (idx K : ℤ) (l : ℕ) : Decidable (laneEligible last idx K l) := by
  unfold laneEligible; infer_instance

/-- The claim's greedy contract, stated relationally: each event receives
the least eligible lane with respect to the recorded-last-index state, and
the chosen lane's entry is updated to the event's index. -/
inductive GreedyFrom (K : ℤ) : List ℤ → List ℤ → List (ℤ × ℕ) → Prop where
  | nil : ∀ last, GreedyFrom K last [] []
  | cons : ∀ last idx rest l as,
      laneEligible last idx K l →
      (∀ m, m < l → ¬ laneEligible last idx K m) →
      GreedyFrom K (setLane last l idx) rest as →
      GreedyFrom K last (idx :: rest) ((idx, l) :: as)

/-! ### Packer lemmas -/

theorem findLane_eligible (idx K : ℤ) :
    ∀ last, laneEligible last idx K (findLane idx K last) := by
  intro last
  induction last with
  | nil => intro v hv; simp at hv
  | cons l rest ih =>
    by_cases h : idx - l < K
    · intro v hv
      simp only [findLane, if_pos h, List.get?_cons_succ] at hv
      exact ih v hv
    · intro v hv
      simp only [findLane, if_neg h, List.get?_cons_zero, Option.some.injEq] at hv
      omega

theorem findLane_min (idx K : ℤ) :
    ∀ last m, m < findLane idx K last → ∃ v, last.get? m = some v ∧ idx - v < K := by
  intro last
  induction last with
  | nil => intro m hm; simp [findLane] at hm
  | cons l rest ih =>
    intro m hm
    by_cases h : idx - l < K
    · simp only [findLane, if_pos h] at hm
      cases m with
      | zero => exact ⟨l, rfl, h⟩
      | succ m =>
        obtain ⟨v, hv, hlt⟩ := ih m (by omega)
        exact ⟨v, by simpa using hv, hlt⟩
    · simp [findLane, if_neg h] at hm

theorem findLane_le_length (idx K : ℤ) : ∀ last, findLane idx K last ≤ last.length := by
  intro last
  induction last with
  | nil => simp [findLane]
  | cons l rest ih =>
    by_cases h : idx - l < K
    · simp only [findLane, if_pos h, List.length_cons]
      omega
    · simp [findLane, if_neg h]

theorem setLane_get_self :
    ∀ (last : List ℤ) (vp : ℕ) (idx : ℤ), vp ≤ last.length →
      (setLane last vp idx).get? vp = some idx := by
  intro last
  induction last with
  | nil =>
    intro vp idx h
    have : vp = 0 := by simpa using h
    subst this
    rfl
  | cons l rest ih =>
    intro vp idx h
    cases vp with
    | zero => rfl
    | succ vp =>
      simp only [setLane, List.get?_cons_succ]
      exact ih vp idx (by simpa using h)

theorem setLane_get_ne :
    ∀ (last : List ℤ) (vp : ℕ) (idx : ℤ) (m : ℕ), vp ≤ last.length → m ≠ vp →
      (setLane last vp idx).get? m = last.get? m := by
  intro last
  induction last with
  | nil =>
    intro vp idx m h hne
    have : vp = 0 := by simpa using h
    subst this
    cases m with
    | zero => exact absurd rfl hne
    | succ m => simp [setLane]
  | cons l rest ih =>
    intro vp idx m h hne
    cases vp with
    | zero =>
      cases m with
      | zero => exact absurd rfl hne
      | succ m => simp [setLane]
    | succ vp =>
      cases m with
      | zero => simp [setLane]
      | succ m =>
        simp only [setLane, List.get?_cons_succ]
        exact ih vp idx m (by simpa using h) (by omega)

theorem mem_setLane :
    ∀ (last : List ℤ) (vp : ℕ) (idx v : ℤ), v ∈ setLane last vp idx → v = idx ∨ v ∈ last := by
  intro last
  induction last with
  | nil =>
    intro vp idx v hv
    cases vp <;> simpa [setLane] using hv
  | cons l rest ih =>
    intro vp idx v hv
    cases vp with
    | zero =>
      rcases (by simpa [setLane] using hv : v = idx ∨ v ∈ rest) with h | h
      · exact Or.inl h
      · exact Or.inr (List.mem_cons_of_mem _ h)
    | succ vp =>
      rcases (by simpa [setLane] using hv : v = l ∨ v ∈ setLane rest vp idx) with h | h
      · exact Or.inr (by simp [h])
      · rcases ih vp idx v h with h2 | h2
        · exact Or.inl h2
        · exact Or.inr (List.mem_cons_of_mem _ h2)

theorem packLanes_greedy (K : ℤ) :
    ∀ (l last : List ℤ), GreedyFrom K last l (packLanes K last l) := by
  intro l
  induction l with
  | nil => intro last; exact GreedyFrom.nil last
  | cons idx rest ih =>
    intro last
    refine GreedyFrom.cons last idx rest _ _ (findLane_eligible idx K last) ?_ (ih _)
    intro m hm hel
    obtain ⟨v, hv, hlt⟩ := findLane_min idx K last m hm
    have := hel v hv
    omega

/-- Separation invariant: any event packed from a state whose entry at its
lane is `v`, with every remaining index at least `v`, ends up at distance
at least `K` from `v`. -/
theorem pack_sep (K : ℤ) :
    ∀ (l last : List ℤ) (b : ℤ × ℕ), List.Pairwise (· ≤ ·) l →
      b ∈ packLanes K last l → ∀ v, last.get? b.2 = some v →
      (∀ x ∈ l, v ≤ x) → K ≤ b.1 - v := by
  intro l
  induction l with
  | nil => intro last b _ hb; simp [packLanes] at hb
  | cons idx rest ih =>
    intro last b hsort hb v hv hle
    obtain ⟨hhead, htail⟩ := List.pairwise_cons.mp hsort
    simp only [packLanes, List.mem_cons] at hb
    rcases hb with hb | hb
    · subst hb
      exact findLane_eligible idx K last v hv
    · by_cases hvp : b.2 = findLane idx K last
      · have hidx : v ≤ idx := hle idx (List.mem_cons_self _ _)
        have h2 : (setLane last (findLane idx K last) idx).get? b.2 = some idx := by
          rw [hvp]
          exact setLane_get_self last _ idx (findLane_le_length idx K last)
        have := ih (setLane last (findLane idx K last) idx) b htail hb idx h2 hhead
        omega
      · have h2 : (setLane last (findLane idx K last) idx).get? b.2 = last.get? b.2 :=
          setLane_get_ne last _ idx b.2 (findLane_le_length idx K last) hvp
        exact ih (setLane last (findLane idx K last) idx) b htail hb v (h2.trans hv)
          (fun x hx => hle x (List.mem_cons_of_mem _ hx))

/-- No two events packed on the same lane, starting from a state all of
whose entries are below every incoming index, lie closer than `K`. -/
theorem pack_pairwise (K : ℤ) :
    ∀ (l last : List ℤ), List.Pairwise (· ≤ ·) l →
      (∀ v ∈ last, ∀ x ∈ l, v ≤ x) →
      List.Pairwise (fun a b => a.2 = b.2 → K ≤ b.1 - a.1) (packLanes K last l) := by
  intro l
  induction l with
  | nil => intro last _ _; simp [packLanes]
  | cons idx rest ih =>
    intro last hsort hlast
    obtain ⟨hhead, htail⟩ := List.pairwise_cons.mp hsort
    simp only [packLanes]
    refine List.pairwise_cons.mpr ⟨?_, ?_⟩
    · intro b hb heq
      have hget : (setLane last (findLane idx K last) idx).get? b.2 = some idx := by
        rw [← heq]
        exact setLane_get_self last _ idx (findLane_le_length idx K last)
      exact pack_sep K rest _ b htail hb idx hget hhead
    · refine ih _ htail ?_
      intro v hv x hx
      rcases mem_setLane last _ idx v hv with h | h
      · subst h; exact hhead x hx
      · exact hlast v h x (List.mem_cons_of_mem _ hx)

theorem runPack_assignments (K : ℤ) :
    ∀ (l : List ℤ) (st : PackState),
      (runPack K st l).assignments = st.assignments ++ packLanes K st.lastPosition l := by
  intro l
  induction l with
  | nil => intro st; simp [runPack, packLanes]
  | cons idx rest ih =>
    intro st
    simp only [runPack, packLanes]
    rw [ih]
    simp [packStep]

theorem packEvents_assignments (K : ℤ) (idxs : List ℤ) :
    (packEvents K idxs).assignments = packLanes K [] idxs := by
  simp [packEvents, runPack_assignments]

/-- Fold computing `0` for no assignments and one more than the greatest
assigned lane otherwise. -/
def maxLanes (as : List (ℤ × ℕ)) : ℕ := as.foldr (fun a m => max (a.2 + 1) m) 0

theorem runPack_max (K : ℤ) :
    ∀ (l : List ℤ) (st : PackState),
      (runPack K st l).maxStackedCards
        = max st.maxStackedCards (maxLanes (packLanes K st.lastPosition l)) := by
  intro l
  induction l with
  | nil => intro st; simp [runPack, packLanes, maxLanes]
  | cons idx rest ih =>
    intro st
    simp only [runPack, packLanes]
    rw [ih]
    simp [packStep, maxLanes, Nat.max_assoc]

theorem packEvents_max (K : ℤ) (idxs : List ℤ) :
    (packEvents K idxs).maxStackedCards = maxLanes (packEvents K idxs).assignments := by
  rw [packEvents_assignments]
  simp [packEvents, runPack_max]

theorem lt_maxLanes : ∀ (as : List (ℤ × ℕ)), ∀ a ∈ as, a.2 < maxLanes as := by
  intro as
  induction as with
  | nil => simp
  | cons a as ih =>
    intro b hb
    rcases List.mem_cons.mp hb with h | h
    · subst h
      exact Nat.lt_of_lt_of_le (Nat.lt_succ_self _) (Nat.le_max_left _ _)
    · exact Nat.lt_of_lt_of_le (ih b h) (Nat.le_max_right _ _)

theorem maxLanes_attained :
    ∀ (as : List (ℤ × ℕ)), as ≠ [] → ∃ a ∈ as, a.2 + 1 = maxLanes as := by
  intro as
  induction as with
  | nil => intro h; exact absurd rfl h
  | cons a as ih =>
    intro _
    rcases Decidable.em (as = []) with hnil | hne
    · subst hnil
      exact ⟨a, List.mem_cons_self _ _, by simp [maxLanes]⟩
    · have hcons : maxLanes (a :: as) = max (a.2 + 1) (maxLanes as) := rfl
      rcases le_or_lt (maxLanes as) (a.2 + 1) with hle | hlt
      · exact ⟨a, List.mem_cons_self _ _, by rw [hcons, Nat.max_eq_left hle]⟩
      · obtain ⟨b, hb, hbmax⟩ := ih hne
        refine ⟨b, List.mem_cons_of_mem _ hb, ?_⟩
        rw [hbmax, hcons, Nat.max_eq_right (Nat.le_of_lt hlt)]

/-! ### Card spacing resolver (src/index.ts lines 143-150)

    let cardSpacing = cardHeight + 4 + verticalSpaceBetweenCards;
    let totalSpaceRequired =
        cardSpacing * (2 * Math.ceil(maxStackedCards / 2)) + timelineLevelHeight * timeHierarchyDepth;
    cardSpacing =
        totalSpaceRequired < windowSize.height
            ? cardSpacing
            : (windowSize.height - timelineLevelHeight * timeHierarchyDepth - (cardHeight + 4) * 2) /
              (2 * Math.ceil(maxStackedCards / 2));
-/

/-- `2 * Math.ceil(maxStackedCards / 2)`: lanes alternate above/below the
ruler in pairs. -/
def laneBlocks (maxStackedCards : ℕ) : ℕ := 2 * ((maxStackedCards + 1) / 2)

/-- The compressed branch divides by `laneBlocks maxStackedCards`, which is
`0` when `maxStackedCards = 0`; in JavaScript that division yields a
non-finite number, modelled here as `none`. -/
def resolveCardSpacing (cardHeight timelineLevelHeight windowHeight : ℚ)
    (timeHierarchyDepth maxStackedCards : ℕ) : Option ℚ :=
  if (cardHeight + 4 + verticalSpaceBetweenCards) * (laneBlocks maxStackedCards : ℚ)
      + timelineLevelHeight * (timeHierarchyDepth : ℚ) < windowHeight then
    some (cardHeight + 4 + verticalSpaceBetweenCards)
  else if laneBlocks maxStackedCards = 0 then none
  else
    some ((windowHeight - timelineLevelHeight * (timeHierarchyDepth : ℚ) - (cardHeight + 4) * 2)
      / (laneBlocks maxStackedCards : ℚ))

/-! ### generalErrorHandler wrapper (src/index.ts lines 400-448) -/

inductive WrapperOutcome where
  | dataViewError
  | tooManyRows
  | invalidated
  | ranCallback
  deriving DecidableEq, Repr

def defaultRowLimit : ℕ := 2000

/-- The JS truthiness test `rowCount && rowCount > rowLimit` (line 418):
false when `rowCount` is null or 0. -/
def rowCountExceeds (rowCount : Option ℕ) (rowLimit : ℕ) : Bool :=
  match rowCount with
  | none => false
  | some n => n != 0 && decide (rowLimit < n)

/-- The callbackWrapper control flow (lines 405-435): error list check, the
row-count cap, the `allRows == null` invalidation check, then the wrapped
callback. `rowCount = none` models a null row count; `allRowsAvailable =
false` models `allRows()` returning null. -/
def callbackWrapper (errors : List String) (rowCount : Option ℕ)
    (allRowsAvailable : Bool) (rowLimit : ℕ) : WrapperOutcome :=
  if 0 < errors.length then .dataViewError
  else if rowCountExceeds rowCount rowLimit then .tooManyRows
  else if allRowsAvailable then .ranCallback
  else .invalidated

/-! ### Coordinate mappers and pointer handlers (src/index.ts lines 269-389) -/

/-- Layout quantities fixed for one update cycle and read by the inline
helper functions. -/
structure LayoutParams where
  timeSegmentMargin : ℚ
  timeMarkerWidth : ℚ
  cardWidth : ℚ
  cardHeight : ℚ
  timeLineTop : ℚ
  cardSpacing : ℚ
  timelineLevelHeight : ℚ
  timeHierarchyDepth : ℕ
  deriving DecidableEq, Repr

/-- The data a card contributes to hit testing: its time position, its
packed lane, and its backing row. -/
structure CardData where
  timePosition : ℕ
  verticalPosition : ℕ
  rowId : ℕ
  deriving DecidableEq, Repr

/-- `calculateCardLeft` (lines 337-339). -/
def calculateCardLeft (p : LayoutParams) (timePosition : ℕ) : ℚ :=
  p.timeSegmentMargin + (timePosition : ℚ) * p.timeMarkerWidth - p.cardWidth / 2
    + p.timeMarkerWidth / 2

/-- `calculateCardTop` (lines 374-389): group = vp % 2, lane = ⌊vp / 2⌋. -/
def calculateCardTop (p : LayoutParams) (verticalPosition : ℕ) : ℚ :=
  if verticalPosition % 2 = 0 then
    p.timeLineTop - verticalSpaceBetweenCards - (verticalPosition / 2 : ℕ) * p.cardSpacing
      - p.cardHeight
  else
    p.timeLineTop + p.timelineLevelHeight * (p.timeHierarchyDepth : ℚ)
      + (verticalPosition / 2 : ℕ) * p.cardSpacing + verticalSpaceBetweenCards

/-- The card rectangle built in the mouseUpHandler filter (lines 305-312). -/
def cardRectOf (p : LayoutParams) (c : CardData) : Rect :=
  ⟨calculateCardLeft p c.timePosition, calculateCardTop p c.verticalPosition,
    calculateCardLeft p c.timePosition + p.cardWidth,
    calculateCardTop p c.verticalPosition + p.cardHeight⟩

/-- `mouseDownHandler` (lines 269-280): both corner points are initialized
to the pointer position in scrolled-document coordinates. -/
def mouseDownModel (clientX clientY scrollLeft scrollTop : ℚ) : Rect :=
  ⟨clientX + scrollLeft, clientY + scrollTop, clientX + scrollLeft, clientY + scrollTop⟩

inductive MarkMode where
  | Replace
  | ToggleOrAdd
  deriving DecidableEq, Repr

/-- The markingOverlay style state (left, top, width, height, and whether
the class is activeMarking). -/
structure OverlayState where
  left : ℚ
  top : ℚ
  width : ℚ
  height : ℚ
  active : Bool
  deriving DecidableEq, Repr

structure MouseUpResult where
  markedRows : List (ℕ × MarkMode)
  stoppedPropagation : Bool
  clearedMarking : Bool
  selectionAfter : Rect
  overlayAfter : OverlayState
  deriving DecidableEq, Repr

/-- The filter of lines 304-322. The handler normalizes the selection
inside the filter callback before each test, so every test sees the
normalized rectangle. -/
def selectedCards (p : LayoutParams) (cards : List CardData) (sel : Rect) : List CardData :=
  cards.filter fun c => intersect (cardRectOf p c) (normalizeRect sel)

/-- `mouseUpHandler` (lines 296-335): reset the overlay styles, filter the
cards against the normalized selection, then either mark every match
(ToggleOrAdd under ctrl/meta, Replace otherwise) and stop propagation, or
clear the marking. The `selection` variable itself is not reset; it is
left normalized when at least one card was tested (the filter callback ran)
and untouched otherwise. -/
def mouseUpModel (p : LayoutParams) (cards : List CardData) (sel : Rect)
    (modifierKey : Bool) : MouseUpResult :=
  if 0 < (selectedCards p cards sel).length then
    { markedRows := (selectedCards p cards sel).map fun c =>
        (c.rowId, if modifierKey then MarkMode.ToggleOrAdd else MarkMode.Replace)
      stoppedPropagation := true
      clearedMarking := false
      selectionAfter := if cards.isEmpty then sel else normalizeRect sel
      overlayAfter := ⟨0, 0, 0, 0, false⟩ }
  else
    { markedRows := []
      stoppedPropagation := false
      clearedMarking := true
      selectionAfter := if cards.isEmpty then sel else normalizeRect sel
      overlayAfter := ⟨0, 0, 0, 0, false⟩ }

/-! ### Time-ruler partition (src/index.ts lines 232-244)

The hierarchy is summed with weight 1 per leaf (`(!d?.children && 1) || 0`)
and laid out by `d3.partition().padding(0).round(false)`, whose horizontal
pass is treemapDice: with `k = parent.value && (x1 - x0) / parent.value`
(0 when the parent's value is 0, which is how d3 avoids dividing by zero),
each child occupies `[x, x + child.value * k)` cumulatively. -/

/-- A time hierarchy node: a leaf time segment, or a grouping node with its
list of children. -/
inductive TimeTree where
  | leaf : TimeTree
  | branch : List TimeTree → TimeTree

mutual

/-- Node value after `hierarchy.sum`: the number of leaf descendants. -/
def TimeTree.value : TimeTree → ℕ
  | .leaf => 1
  | .branch cs => TimeTree.valueList cs

def TimeTree.valueList : List TimeTree → ℕ
  | [] => 0
  | c :: cs => c.value + TimeTree.valueList cs

end

/-- A laid-out node: x extent, depth, laid-out children. -/
inductive PTree where
  | mk : ℚ → ℚ → ℕ → List PTree → PTree

def PTree.x0 : PTree → ℚ
  | .mk a _ _ _ => a

def PTree.x1 : PTree → ℚ
  | .mk _ b _ _ => b

def PTree.depth : PTree → ℕ
  | .mk _ _ d _ => d

def PTree.children : PTree → List PTree
  | .mk _ _ _ cs => cs

def PTree.width (t : PTree) : ℚ := t.x1 - t.x0

mutual

/-- Modelled from the spec: the `d3.partition().padding(0).round(false)`
layout invoked at line 236 lives in the d3 library, not in this
repository's sources; per the spec's partition contract (and d3's
treemapDice pass) the node keeps its interval and its children are diced
proportionally to their values with factor
`k = value && (x1 - x0) / value`. -/
def layout : TimeTree → ℚ → ℚ → ℕ → PTree
  | .leaf, x0, x1, d => .mk x0 x1 d []
  | .branch cs, x0, x1, d =>
      .mk x0 x1 d (layoutList cs x0
        (if TimeTree.valueList cs = 0 then 0 else (x1 - x0) / (TimeTree.valueList cs : ℚ))
        (d + 1))

def layoutList : List TimeTree → ℚ → ℚ → ℕ → List PTree
  | [], _, _, _ => []
  | c :: cs, x, k, d =>
      layout c x (x + k * (c.value : ℚ)) d
        :: layoutList cs (x + k * (c.value : ℚ)) k d

end

def widthSum : List PTree → ℚ
  | [] => 0
  | t :: ts => t.width + widthSum ts

mutual

/-- Every node of the laid-out tree that has children has children whose
widths sum exactly to its own width. -/
def childSumOK : PTree → Bool
  | .mk x0 x1 _ cs => (cs.isEmpty || decide (widthSum cs = x1 - x0)) && childSumOKList cs

def childSumOKList : List PTree → Bool
  | [] => true
  | t :: ts => childSumOK t && childSumOKList ts

end

mutual

/-- Total width of the laid-out nodes at relative depth `ℓ`. -/
def levelSum : PTree → ℕ → ℚ
  | t, 0 => t.width
  | .mk _ _ _ cs, ℓ + 1 => levelSumList cs ℓ

def levelSumList : List PTree → ℕ → ℚ
  | [], _ => 0
  | t :: ts, ℓ => levelSum t ℓ + levelSumList ts ℓ

end

/-- A leveled time hierarchy (as produced by the host's time axis): every
path from the root to a leaf has the same length `d`, and grouping nodes
are never childless. -/
inductive Uniform : TimeTree → ℕ → Prop where
  | leaf : Uniform .leaf 0
  | branch : ∀ (cs : List TimeTree) (d : ℕ), cs ≠ [] →
      (∀ c ∈ cs, Uniform c d) → Uniform (.branch cs) (d + 1)

theorem layout_width (t : TimeTree) (x0 x1 : ℚ) (d : ℕ) :
    (layout t x0 x1 d).width = x1 - x0 := by
  cases t <;> simp [layout, PTree.width, PTree.x0, PTree.x1]

theorem widthSum_layoutList (cs : List TimeTree) (k : ℚ) (d : ℕ) :
    ∀ x : ℚ, widthSum (layoutList cs x k d) = k * (TimeTree.valueList cs : ℚ) := by
  induction cs with
  | nil => intro x; simp [layoutList, widthSum, TimeTree.valueList]
  | cons c cs ih =>
    intro x
    simp only [layoutList, widthSum]
    rw [layout_width, ih (x + k * (c.value : ℚ))]
    simp only [TimeTree.valueList]
    push_cast
    ring

mutual

theorem childSumOK_layout : ∀ (t : TimeTree) (x0 x1 : ℚ) (d : ℕ),
    (t.value ≠ 0 ∨ x1 = x0) → childSumOK (layout t x0 x1 d) = true
  | .leaf, x0, x1, d, _ => by
    simp [layout, childSumOK, childSumOKList]
  | .branch cs, x0, x1, d, h => by
    simp only [layout, childSumOK, Bool.and_eq_true]
    refine ⟨?_, childSumOKList_layoutList cs x0 _ (d + 1)⟩
    rw [widthSum_layoutList]
    by_cases hv : TimeTree.valueList cs = 0
    · have hx : x1 = x0 := by
        rcases h with h | h
        · exact absurd hv (by simpa [TimeTree.value] using h)
        · exact h
      simp [hv, hx]
    · rw [if_neg hv, div_mul_cancel₀ _ (Nat.cast_ne_zero.mpr hv)]
      simp

theorem childSumOKList_layoutList : ∀ (cs : List TimeTree) (x k : ℚ) (d : ℕ),
    childSumOKList (layoutList cs x k d) = true
  | [], _, _, _ => rfl
  | c :: cs, x, k, d => by
    simp only [layoutList, childSumOKList, Bool.and_eq_true]
    refine ⟨?_, childSumOKList_layoutList cs (x + k * (c.value : ℚ)) k d⟩
    by_cases hv : c.value = 0
    · exact childSumOK_layout c x (x + k * (c.value : ℚ)) d (Or.inr (by simp [hv]))
    · exact childSumOK_layout c x (x + k * (c.value : ℚ)) d (Or.inl hv)

end

theorem Uniform.value_pos {t : TimeTree} {d : ℕ} (h : Uniform t d) : 1 ≤ t.value := by
  induction h with
  | leaf => simp [TimeTree.value]
  | branch cs d hne hall ih =>
    cases cs with
    | nil => exact absurd rfl hne
    | cons c cs =>
      have h1 : 1 ≤ c.value := ih c (List.mem_cons_self _ _)
      simp only [TimeTree.value, TimeTree.valueList]
      omega

theorem levelSumList_layoutList (ℓ : ℕ) (d : ℕ) (k : ℚ) :
    ∀ (cs : List TimeTree),
      (∀ c ∈ cs, ∀ a b : ℚ, levelSum (layout c a b d) ℓ = b - a) →
      ∀ x : ℚ, levelSumList (layoutList cs x k d) ℓ = k * (TimeTree.valueList cs : ℚ) := by
  intro cs
  induction cs with
  | nil => intro _ x; simp [layoutList, levelSumList, TimeTree.valueList]
  | cons c cs ih =>
    intro h x
    simp only [layoutList, levelSumList]
    rw [h c (List.mem_cons_self _ _) x (x + k * (c.value : ℚ)),
      ih (fun c hc => h c (List.mem_cons_of_mem _ hc)) (x + k * (c.value : ℚ))]
    simp only [TimeTree.valueList]
    push_cast
    ring

theorem levelSum_layout : ∀ (t : TimeTree) (d : ℕ), Uniform t d →
    ∀ (x0 x1 : ℚ) (dep ℓ : ℕ), ℓ ≤ d → levelSum (layout t x0 x1 dep) ℓ = x1 - x0 := by
  intro t d h
  induction h with
  | leaf =>
    intro x0 x1 dep ℓ hℓ
    have : ℓ = 0 := Nat.le_zero.mp hℓ
    subst this
    simp [layout, levelSum, PTree.width, PTree.x0, PTree.x1]
  | branch cs d hne hall ih =>
    intro x0 x1 dep ℓ hℓ
    cases ℓ with
    | zero => rw [show levelSum (layout (.branch cs) x0 x1 dep) 0
        = (layout (.branch cs) x0 x1 dep).width from rfl, layout_width]
    | succ ℓ0 =>
      have hv : TimeTree.valueList cs ≠ 0 := by
        have h1 := (Uniform.branch cs d hne hall).value_pos
        simp only [TimeTree.value] at h1
        omega
      simp only [layout, levelSum]
      rw [levelSumList_layoutList ℓ0 (dep + 1) _ cs
        (fun c hc a b => ih c hc a b (dep + 1) ℓ0 (by omega)) x0]
      rw [if_neg hv, div_mul_cancel₀ _ (Nat.cast_ne_zero.mpr hv)]

/-! ### The onChange update cycle (src/index.ts lines 76-150)

Pure model of one update cycle: the guard structure (missing Time axis,
leaf cap, missing hierarchy root) followed by the card-building pass and
the spacing resolution. Sizes derived from the font (lines 52-58). -/

def cardHeightOf (fontSize : ℚ) : ℚ := fontSize * rowsPerCard * 1.5

def timelineLevelHeightOf (fontSize : ℚ) : ℚ := fontSize * 2

def minimumTimeSegmentWidthOf (fontSize : ℚ) : ℚ := fontSize * 4

def cardWidthOf (fontSize : ℚ) : ℚ := 3.2 * minimumTimeSegmentWidthOf fontSize

def timeSegmentMarginOf (fontSize : ℚ) : ℚ := cardWidthOf fontSize / 2

/-- Lines 103-104. The quotient for zero leaves is non-finite in JS; no
claim depends on it and rational division-by-zero stands in for it here. -/
def timeMarkerWidthOf (windowWidth fontSize : ℚ) (leafCount : ℕ) : ℚ :=
  if minimumTimeSegmentWidthOf fontSize
      ≤ (windowWidth - timeSegmentMarginOf fontSize * 2) / (leafCount : ℚ) then
    (windowWidth - timeSegmentMarginOf fontSize * 2) / (leafCount : ℚ)
  else minimumTimeSegmentWidthOf fontSize

/-- Line 105. -/
def timeSegmentsPerCardOf (windowWidth fontSize : ℚ) (leafCount : ℕ) : ℤ :=
  ⌈(cardWidthOf fontSize + horizontalSpaceBetweenCards)
    / timeMarkerWidthOf windowWidth fontSize leafCount⌉

/-- Input data of one cycle: axis presence, the formatted Event value of
each row grouped by time leaf (in leaf order), viewport and font. -/
structure UpdateInput where
  hasTime : Bool
  hasDescription : Bool
  hasRoot : Bool
  leafRows : List (List String)
  windowWidth : ℚ
  windowHeight : ℚ
  fontSize : ℚ
  timeHierarchyDepth : ℕ

/-- The event stream of the card-building pass (lines 116-119): for each
leaf in order, each of its rows with a non-empty Event value yields one
event carrying the leaf's index. -/
def eventIndices (leafRows : List (List String)) : List ℤ :=
  leafRows.enum.flatMap fun p => (p.2.filter fun s => s ≠ "").map fun _ => (p.1 : ℤ)

/-- Observable outcome of one onChange invocation. -/
structure CycleEffects where
  clearedDrawing : Bool
  renderedCards : List (ℤ × ℕ)
  maxStackedCards : ℕ
  cardSpacing : Option ℚ
  signaledComplete : Bool
  errorShown : Bool
  deriving Repr

/-- Early exits of lines 83-86 and 90-93: remove everything from the
drawing layer and return. No error is raised and no message is shown. -/
def clearedEffects : CycleEffects :=
  { clearedDrawing := true, renderedCards := [], maxStackedCards := 0,
    cardSpacing := none, signaledComplete := false, errorShown := false }

/-- onChange (lines 76-150 without the DOM writes). -/
def onChangeModel (inp : UpdateInput) : CycleEffects :=
  if inp.hasTime = false then clearedEffects
  else if maxTimeSegments < inp.leafRows.length then clearedEffects
  else if inp.hasRoot = false then
    { clearedDrawing := false, renderedCards := [], maxStackedCards := 0,
      cardSpacing := none, signaledComplete := false, errorShown := false }
  else
    { clearedDrawing := false
      renderedCards :=
        (packEvents (timeSegmentsPerCardOf inp.windowWidth inp.fontSize inp.leafRows.length)
          (eventIndices inp.leafRows)).assignments
      maxStackedCards :=
        (packEvents (timeSegmentsPerCardOf inp.windowWidth inp.fontSize inp.leafRows.length)
          (eventIndices inp.leafRows)).maxStackedCards
      cardSpacing :=
        resolveCardSpacing (cardHeightOf inp.fontSize) (timelineLevelHeightOf inp.fontSize)
          inp.windowHeight inp.timeHierarchyDepth
          ((packEvents (timeSegmentsPerCardOf inp.windowWidth inp.fontSize inp.leafRows.length)
            (eventIndices inp.leafRows)).maxStackedCards)
      signaledComplete := true
      errorShown := false }

/-! ## Claim theorems -/

/-- C1: processing events in ascending timeIndex order with a fixed
integer `timeSegmentsPerCard = K`, the packer assigns each event the
smallest non-negative lane whose recorded last time index is unset or at
least `K` below the event's index (equivalently, differs by at least `K`,
since under the ascending hypothesis every recorded index is at most the
incoming one); consequently two events on the same lane always have
timeIndex difference at least `K`; and for events at timeIndex 0, 1, 2
with `K = 2` the assigned lanes are 0, 1, 0. -/
theorem packer_first_fit_separation (K : ℤ) (idxs : List ℤ)
    (hsort : List.Pairwise (· ≤ ·) idxs) :
    GreedyFrom K [] idxs (packEvents K idxs).assignments ∧
    List.Pairwise (fun a b => a.2 = b.2 → K ≤ b.1 - a.1) (packEvents K idxs).assignments ∧
    (packEvents 2 [0, 1, 2]).assignments.map Prod.snd = [0, 1, 0] := by
  refine ⟨?_, ?_, by decide⟩
  · rw [packEvents_assignments]
    exact packLanes_greedy K idxs []
  · rw [packEvents_assignments]
    exact pack_pairwise K idxs [] hsort (by intro v hv; simp at hv)

theorem packer_first_fit_separation_witness :
    List.Pairwise (· ≤ ·) ([0, 1, 2] : List ℤ) ∧
    (GreedyFrom 2 [] [0, 1, 2] (packEvents 2 [0, 1, 2]).assignments ∧
      List.Pairwise (fun a b => a.2 = b.2 → 2 ≤ b.1 - a.1) (packEvents 2 [0, 1, 2]).assignments ∧
      (packEvents 2 [0, 1, 2]).assignments.map Prod.snd = [0, 1, 0]) :=
  ⟨by decide, packer_first_fit_separation 2 [0, 1, 2] (by decide)⟩

/-- C9: after the card-building pass, `maxStackedCards` is 0 when no cards
were created and otherwise one more than the greatest verticalPosition;
every card's verticalPosition is below `maxStackedCards`. -/
theorem maxStackedCards_invariant (K : ℤ) (idxs : List ℤ) :
    ((packEvents K idxs).assignments = [] → (packEvents K idxs).maxStackedCards = 0) ∧
    (∀ a ∈ (packEvents K idxs).assignments, a.2 < (packEvents K idxs).maxStackedCards) ∧
    ((packEvents K idxs).assignments ≠ [] →
      ∃ a ∈ (packEvents K idxs).assignments,
        a.2 + 1 = (packEvents K idxs).maxStackedCards) := by
  have hmax := packEvents_max K idxs
  refine ⟨?_, ?_, ?_⟩
  · intro h
    rw [hmax, h]
    rfl
  · intro a ha
    rw [hmax]
    exact lt_maxLanes _ a ha
  · intro h
    rw [hmax]
    exact maxLanes_attained _ h

theorem maxStackedCards_invariant_witness :
    (packEvents 3 [0, 0, 5]).assignments ≠ [] ∧
    (∀ a ∈ (packEvents 3 [0, 0, 5]).assignments, a.2 < (packEvents 3 [0, 0, 5]).maxStackedCards) ∧
    (∃ a ∈ (packEvents 3 [0, 0, 5]).assignments,
      a.2 + 1 = (packEvents 3 [0, 0, 5]).maxStackedCards) := by
  have h := maxStackedCards_invariant 3 [0, 0, 5]
  have hne : (packEvents 3 [0, 0, 5]).assignments ≠ [] := by decide
  exact ⟨hne, h.2.1, h.2.2 hne⟩

/-- C2 (amended to `maxStackedLanes ≥ 1`; for `maxStackedLanes = 0` and a
viewport no taller than the ruler the compressed branch divides by zero,
see the counterexample): the resolver returns the natural spacing when the
natural required height is below the viewport height, and otherwise a
compressed spacing whose lane total plus the ruler band equals the
viewport height minus an allowance of two card heights; in both cases the
lane total plus the ruler band never exceeds the viewport height. -/
theorem cardSpacing_fits (cardHeight timelineLevelHeight windowHeight : ℚ)
    (timeHierarchyDepth maxStackedCards : ℕ)
    (hm : 1 ≤ maxStackedCards) (hch : 0 ≤ cardHeight) :
    ∃ s, resolveCardSpacing cardHeight timelineLevelHeight windowHeight
        timeHierarchyDepth maxStackedCards = some s ∧
      ((cardHeight + 4 + verticalSpaceBetweenCards) * (laneBlocks maxStackedCards : ℚ)
          + timelineLevelHeight * (timeHierarchyDepth : ℚ) < windowHeight →
        s = cardHeight + 4 + verticalSpaceBetweenCards) ∧
      (¬ ((cardHeight + 4 + verticalSpaceBetweenCards) * (laneBlocks maxStackedCards : ℚ)
          + timelineLevelHeight * (timeHierarchyDepth : ℚ) < windowHeight) →
        s * (laneBlocks maxStackedCards : ℚ) + timelineLevelHeight * (timeHierarchyDepth : ℚ)
          = windowHeight - (cardHeight + 4) * 2) ∧
      s * (laneBlocks maxStackedCards : ℚ) + timelineLevelHeight * (timeHierarchyDepth : ℚ)
        ≤ windowHeight := by
  have hb : laneBlocks maxStackedCards ≠ 0 := by
    unfold laneBlocks
    omega
  have hbQ : (laneBlocks maxStackedCards : ℚ) ≠ 0 := Nat.cast_ne_zero.mpr hb
  unfold resolveCardSpacing
  by_cases hc : (cardHeight + 4 + verticalSpaceBetweenCards) * (laneBlocks maxStackedCards : ℚ)
      + timelineLevelHeight * (timeHierarchyDepth : ℚ) < windowHeight
  · rw [if_pos hc]
    exact ⟨_, rfl, fun _ => rfl, fun hn => absurd hc hn, le_of_lt hc⟩
  · rw [if_neg hc, if_neg hb]
    refine ⟨_, rfl, fun h => absurd h hc, fun _ => ?_, ?_⟩
    · rw [div_mul_cancel₀ _ hbQ]
      ring
    · rw [div_mul_cancel₀ _ hbQ]
      linarith

theorem cardSpacing_fits_witness :
    (1 ≤ 3) ∧ ((0:ℚ) ≤ 30) ∧
    ∃ s, resolveCardSpacing 30 20 600 1 3 = some s ∧
      s * (laneBlocks 3 : ℚ) + 20 * ((1:ℕ) : ℚ) ≤ 600 := by
  obtain ⟨s, hs, _, _, hle⟩ := cardSpacing_fits 30 20 600 1 3 (by norm_num) (by norm_num)
  exact ⟨by norm_num, by norm_num, s, hs, hle⟩

/-- C2 counterexample: for `maxStackedLanes = 0` with ruler height 20 and
viewport height 10 the natural total does not fit, and no compressed
spacing is produced at all (the claimed branch divides by zero). -/
theorem cardSpacing_claim_fails_at_zero_lanes :
    resolveCardSpacing 30 20 10 1 0 = none := by
  unfold resolveCardSpacing laneBlocks
  norm_num [verticalSpaceBetweenCards]

/-- C3 (amended): for `maxStackedLanes = 0` the resolver is only safe while
the ruler band is shorter than the viewport, in which case it returns the
natural spacing, which is positive; when the ruler band reaches the
viewport height, the compressed branch divides by `2·ceil(0/2) = 0` and no
finite non-negative spacing is produced (JS yields -Infinity). -/
theorem cardSpacing_zero_lanes (cardHeight timelineLevelHeight windowHeight : ℚ)
    (timeHierarchyDepth : ℕ) (hch : 0 ≤ cardHeight) :
    (timelineLevelHeight * (timeHierarchyDepth : ℚ) < windowHeight →
      resolveCardSpacing cardHeight timelineLevelHeight windowHeight timeHierarchyDepth 0
          = some (cardHeight + 4 + verticalSpaceBetweenCards) ∧
        0 < cardHeight + 4 + verticalSpaceBetweenCards) ∧
    (¬ timelineLevelHeight * (timeHierarchyDepth : ℚ) < windowHeight →
      resolveCardSpacing cardHeight timelineLevelHeight windowHeight timeHierarchyDepth 0
        = none) := by
  have hb : laneBlocks 0 = 0 := rfl
  have hcond : (cardHeight + 4 + verticalSpaceBetweenCards) * (laneBlocks 0 : ℚ)
      + timelineLevelHeight * (timeHierarchyDepth : ℚ)
      = timelineLevelHeight * (timeHierarchyDepth : ℚ) := by
    rw [hb]
    push_cast
    ring
  constructor
  · intro h
    refine ⟨?_, by unfold verticalSpaceBetweenCards; linarith⟩
    unfold resolveCardSpacing
    rw [if_pos (by rw [hcond]; exact h)]
  · intro h
    unfold resolveCardSpacing
    rw [if_neg (by rw [hcond]; exact h), if_pos hb]

theorem cardSpacing_zero_lanes_witness :
    (0:ℚ) ≤ 30 ∧ 20 * ((1:ℕ) : ℚ) < 600 ∧
    resolveCardSpacing 30 20 600 1 0 = some (30 + 4 + verticalSpaceBetweenCards) ∧
    (0:ℚ) < 30 + 4 + verticalSpaceBetweenCards := by
  have h := (cardSpacing_zero_lanes 30 20 600 1 (by norm_num)).1 (by norm_num)
  exact ⟨by norm_num, by norm_num, h.1, h.2⟩

/-- C3 counterexample: with `maxStackedLanes = 0`, ruler height 48 and
viewport height 20, the resolver reaches the compressed branch and its
division by zero means no (in particular no non-negative) spacing value is
produced; in JS the result is -Infinity, which is negative. -/
theorem cardSpacing_zero_lanes_claim_fails :
    resolveCardSpacing 30 24 20 2 0 = none := by
  unfold resolveCardSpacing laneBlocks
  norm_num [verticalSpaceBetweenCards]

/-- C5: when the Time axis is present and the leaf time-segment count
exceeds the cap of 2000, the update cycle clears the drawing layer and
returns early: nothing is rendered, no error is raised, no message is
shown, and render-complete is not signalled. -/
theorem leaf_cap_clears (inp : UpdateInput) (ht : inp.hasTime = true)
    (hcap : maxTimeSegments < inp.leafRows.length) :
    onChangeModel inp = clearedEffects ∧
    clearedEffects.renderedCards = [] ∧
    clearedEffects.clearedDrawing = true ∧
    clearedEffects.errorShown = false ∧
    clearedEffects.signaledComplete = false := by
  refine ⟨?_, rfl, rfl, rfl, rfl⟩
  unfold onChangeModel
  rw [ht]
  simp [hcap]

/-- A cycle with 2001 leaf time segments (each with no rows). -/
def sampleLargeInput : UpdateInput :=
  { hasTime := true, hasDescription := true, hasRoot := true,
    leafRows := List.replicate 2001 [], windowWidth := 800, windowHeight := 600,
    fontSize := 12, timeHierarchyDepth := 2 }

theorem leaf_cap_clears_witness :
    sampleLargeInput.hasTime = true ∧
    maxTimeSegments < sampleLargeInput.leafRows.length ∧
    onChangeModel sampleLargeInput = clearedEffects := by
  have h2 : maxTimeSegments < sampleLargeInput.leafRows.length := by
    have hr : sampleLargeInput.leafRows = List.replicate 2001 [] := rfl
    rw [hr, List.length_replicate]
    norm_num [maxTimeSegments]
  exact ⟨rfl, h2, (leaf_cap_clears sampleLargeInput rfl h2).1⟩

/-- C4: for a leveled time hierarchy with at least one leaf, every laid-out
node that has children has children whose widths sum exactly to the node's
own width (the drift is zero in exact arithmetic, within any epsilon), and
the widths of the nodes at each level sum to the total timeline width. -/
theorem partition_widths_sum (t : TimeTree) (d : ℕ) (W : ℚ)
    (hu : Uniform t d) (hleaf : 1 ≤ t.value) :
    childSumOK (layout t 0 W 0) = true ∧
    ∀ ℓ ≤ d, levelSum (layout t 0 W 0) ℓ = W := by
  constructor
  · exact childSumOK_layout t 0 W 0 (Or.inl (by omega))
  · intro ℓ hℓ
    have h := levelSum_layout t d hu 0 W 0 ℓ hℓ
    simpa using h

/-- A two-level hierarchy with two leaf segments. -/
def sampleTree : TimeTree := .branch [.leaf, .leaf]

theorem sampleTree_uniform : Uniform sampleTree 1 := by
  refine Uniform.branch [TimeTree.leaf, TimeTree.leaf] 0 (by simp) ?_
  intro c hc
  rcases List.mem_cons.mp hc with h | h
  · subst h; exact Uniform.leaf
  · rcases List.mem_cons.mp h with h2 | h2
    · subst h2; exact Uniform.leaf
    · simp at h2

theorem partition_widths_sum_witness :
    1 ≤ sampleTree.value ∧
    childSumOK (layout sampleTree 0 10 0) = true ∧
    (∀ ℓ ≤ 1, levelSum (layout sampleTree 0 10 0) ℓ = 10) ∧
    levelSum (layout sampleTree 0 10 0) 1 = 10 := by
  have hv : 1 ≤ sampleTree.value := by
    norm_num [sampleTree, TimeTree.value, TimeTree.valueList]
  have h := partition_widths_sum sampleTree 1 10 sampleTree_uniform hv
  exact ⟨hv, h.1, h.2, h.2 1 (le_refl 1)⟩

/-- C6: on pointer release, when at least one card rectangle intersects the
normalized drag rectangle, exactly the rows of the intersecting cards are
marked — ToggleOrAdd when ctrl/meta is held, Replace otherwise — and the
default clear-selection action is suppressed (propagation stopped, marking
not cleared); when no card intersects, nothing is marked and the external
marking is cleared entirely. -/
theorem mouseUp_marks_intersecting (p : LayoutParams) (cards : List CardData)
    (sel : Rect) (modifierKey : Bool) :
    ((∃ c ∈ cards, intersect (cardRectOf p c) (normalizeRect sel) = true) →
      (∀ r m, (r, m) ∈ (mouseUpModel p cards sel modifierKey).markedRows ↔
        ((∃ c ∈ cards, c.rowId = r ∧ intersect (cardRectOf p c) (normalizeRect sel) = true) ∧
          m = (if modifierKey then MarkMode.ToggleOrAdd else MarkMode.Replace))) ∧
      (mouseUpModel p cards sel modifierKey).stoppedPropagation = true ∧
      (mouseUpModel p cards sel modifierKey).clearedMarking = false) ∧
    ((∀ c ∈ cards, intersect (cardRectOf p c) (normalizeRect sel) = false) →
      (mouseUpModel p cards sel modifierKey).markedRows = [] ∧
      (mouseUpModel p cards sel modifierKey).stoppedPropagation = false ∧
      (mouseUpModel p cards sel modifierKey).clearedMarking = true) := by
  constructor
  · rintro ⟨c0, hc0, hint⟩
    have hpos : 0 < (selectedCards p cards sel).length :=
      List.length_pos_of_mem (List.mem_filter.mpr ⟨hc0, hint⟩)
    unfold mouseUpModel
    rw [if_pos hpos]
    refine ⟨?_, rfl, rfl⟩
    intro r m
    simp only [List.mem_map, selectedCards, List.mem_filter]
    constructor
    · rintro ⟨c, ⟨hcc, hci⟩, heq⟩
      rw [Prod.mk.injEq] at heq
      exact ⟨⟨c, hcc, heq.1, hci⟩, heq.2.symm⟩
    · rintro ⟨⟨c, hcc, hrid, hci⟩, hm⟩
      exact ⟨c, ⟨hcc, hci⟩, by rw [hrid, hm]⟩
  · intro h
    have hnil : selectedCards p cards sel = [] := by
      unfold selectedCards
      refine List.filter_eq_nil_iff.mpr ?_
      intro a ha
      simp [h a ha]
    unfold mouseUpModel
    rw [hnil]
    exact ⟨rfl, rfl, rfl⟩

/-- Cycle geometry for the drag-selection scenario: margin 0, segment
width 10, cards 8 wide and 8 tall, ruler top at 100. -/
def sampleLayout : LayoutParams :=
  { timeSegmentMargin := 0, timeMarkerWidth := 10, cardWidth := 8, cardHeight := 8,
    timeLineTop := 100, cardSpacing := 30, timelineLevelHeight := 20, timeHierarchyDepth := 1 }

/-- Three adjacent cards on lane 0 at time positions 0, 1 and 2. -/
def sampleCards : List CardData := [⟨0, 0, 10⟩, ⟨1, 0, 11⟩, ⟨2, 0, 12⟩]

/-- A drag rectangle fully enclosing the first two cards and excluding the
third. -/
def sampleDrag : Rect := ⟨0, 70, 20, 95⟩

theorem mouseUp_marks_intersecting_witness :
    (∃ c ∈ sampleCards, intersect (cardRectOf sampleLayout c) (normalizeRect sampleDrag) = true) ∧
    (mouseUpModel sampleLayout sampleCards sampleDrag false).markedRows
        = [(10, MarkMode.Replace), (11, MarkMode.Replace)] ∧
    (mouseUpModel sampleLayout sampleCards sampleDrag true).markedRows
        = [(10, MarkMode.ToggleOrAdd), (11, MarkMode.ToggleOrAdd)] ∧
    (mouseUpModel sampleLayout sampleCards sampleDrag false).stoppedPropagation = true ∧
    (mouseUpModel sampleLayout sampleCards sampleDrag false).clearedMarking = false := by
  have hi0 : intersect (cardRectOf sampleLayout ⟨0, 0, 10⟩) (normalizeRect sampleDrag) = true := by
    norm_num [intersect, cardRectOf, calculateCardLeft, calculateCardTop, normalizeRect,
      sampleLayout, sampleDrag, verticalSpaceBetweenCards, min_def, max_def]
  have hi1 : intersect (cardRectOf sampleLayout ⟨1, 0, 11⟩) (normalizeRect sampleDrag) = true := by
    norm_num [intersect, cardRectOf, calculateCardLeft, calculateCardTop, normalizeRect,
      sampleLayout, sampleDrag, verticalSpaceBetweenCards, min_def, max_def]
  have hi2 : intersect (cardRectOf sampleLayout ⟨2, 0, 12⟩) (normalizeRect sampleDrag) = false := by
    norm_num [intersect, cardRectOf, calculateCardLeft, calculateCardTop, normalizeRect,
      sampleLayout, sampleDrag, verticalSpaceBetweenCards, min_def, max_def]
  have hsel : selectedCards sampleLayout sampleCards sampleDrag
      = [⟨0, 0, 10⟩, ⟨1, 0, 11⟩] := by
    simp only [selectedCards, sampleCards, List.filter_cons, hi0, hi1, hi2]
    rfl
  have h : ∃ c ∈ sampleCards,
      intersect (cardRectOf sampleLayout c) (normalizeRect sampleDrag) = true :=
    ⟨⟨0, 0, 10⟩, by simp [sampleCards], hi0⟩
  have hth := (mouseUp_marks_intersecting sampleLayout sampleCards sampleDrag false).1 h
  refine ⟨h, ?_, ?_, hth.2.1, hth.2.2⟩
  · simp [mouseUpModel, hsel]
  · simp [mouseUpModel, hsel]

/-- C7: the rectangle intersection test is symmetric, and a rectangle that
fully contains a (normalized) rectangle always tests as intersecting it,
in both argument orders. -/
theorem intersect_symm_and_contains :
    (∀ a b : Rect, intersect a b = intersect b a) ∧
    (∀ outer inner : Rect, inner.x1 ≤ inner.x2 → inner.y1 ≤ inner.y2 →
      containsRect outer inner →
      intersect outer inner = true ∧ intersect inner outer = true) := by
  have hsymm : ∀ a b : Rect, intersect a b = intersect b a := by
    intro a b
    unfold intersect
    by_cases h1 : a.x1 > b.x2 ∨ b.x1 > a.x2
    · have h1s : b.x1 > a.x2 ∨ a.x1 > b.x2 := h1.symm
      rw [if_pos h1, if_pos h1s]
    · have h1s : ¬ (b.x1 > a.x2 ∨ a.x1 > b.x2) := fun h => h1 h.symm
      rw [if_neg h1, if_neg h1s]
      by_cases h2 : a.y1 > b.y2 ∨ b.y1 > a.y2
      · have h2s : b.y1 > a.y2 ∨ a.y1 > b.y2 := h2.symm
        rw [if_pos h2, if_pos h2s]
      · have h2s : ¬ (b.y1 > a.y2 ∨ a.y1 > b.y2) := fun h => h2 h.symm
        rw [if_neg h2, if_neg h2s]
  refine ⟨hsymm, ?_⟩
  intro outer inner hx hy hcon
  obtain ⟨h1, h2, h3, h4⟩ := hcon
  have hoi : intersect outer inner = true := by
    unfold intersect
    rw [if_neg (by push_neg; constructor <;> linarith),
      if_neg (by push_neg; constructor <;> linarith)]
  exact ⟨hoi, by rw [hsymm inner outer]; exact hoi⟩

theorem intersect_symm_and_contains_witness :
    ((2:ℚ) ≤ 4 ∧ (3:ℚ) ≤ 5 ∧ containsRect ⟨0, 0, 10, 10⟩ ⟨2, 3, 4, 5⟩) ∧
    intersect ⟨0, 0, 10, 10⟩ ⟨2, 3, 4, 5⟩ = true ∧
    intersect ⟨2, 3, 4, 5⟩ ⟨0, 0, 10, 10⟩ = true := by
  have hx : ((⟨2, 3, 4, 5⟩ : Rect)).x1 ≤ ((⟨2, 3, 4, 5⟩ : Rect)).x2 := by norm_num
  have hy : ((⟨2, 3, 4, 5⟩ : Rect)).y1 ≤ ((⟨2, 3, 4, 5⟩ : Rect)).y2 := by norm_num
  have hcon : containsRect ⟨0, 0, 10, 10⟩ ⟨2, 3, 4, 5⟩ := by
    refine ⟨by norm_num, by norm_num, by norm_num, by norm_num⟩
  have h := intersect_symm_and_contains.2 ⟨0, 0, 10, 10⟩ ⟨2, 3, 4, 5⟩ hx hy hcon
  exact ⟨⟨hx, hy, hcon⟩, h.1, h.2⟩

/-- C8 counterexample: after releasing a drag from (0,0) to (10,10) with no
cards present, the selection rectangle state still holds the dragged
corners — it is not an empty rectangle (its corner points differ). -/
theorem selection_not_reset_on_release :
    (mouseUpModel sampleLayout [] ⟨0, 0, 10, 10⟩ false).selectionAfter = ⟨0, 0, 10, 10⟩ ∧
    ¬ ((mouseUpModel sampleLayout [] ⟨0, 0, 10, 10⟩ false).selectionAfter.x1
          = (mouseUpModel sampleLayout [] ⟨0, 0, 10, 10⟩ false).selectionAfter.x2 ∧
        (mouseUpModel sampleLayout [] ⟨0, 0, 10, 10⟩ false).selectionAfter.y1
          = (mouseUpModel sampleLayout [] ⟨0, 0, 10, 10⟩ false).selectionAfter.y2) := by
  decide

/-- C8 (amended): on pointer release the marking overlay — the visible
rubber band — is reset to zero extents and deactivated, but the selection
rectangle variable is not emptied: it keeps its corners (normalized
whenever at least one card was tested); the selection is only
re-initialized at the next pointer-down, which starts it as an empty
rectangle at the pointer position. -/
theorem overlay_reset_selection_kept (p : LayoutParams) (cards : List CardData)
    (sel : Rect) (modifierKey : Bool) :
    (mouseUpModel p cards sel modifierKey).overlayAfter = ⟨0, 0, 0, 0, false⟩ ∧
    (mouseUpModel p cards sel modifierKey).selectionAfter
        = (if cards.isEmpty then sel else normalizeRect sel) ∧
    (∀ cx cy sl st : ℚ,
      (mouseDownModel cx cy sl st).x1 = (mouseDownModel cx cy sl st).x2 ∧
      (mouseDownModel cx cy sl st).y1 = (mouseDownModel cx cy sl st).y2) := by
  unfold mouseUpModel
  split_ifs <;> exact ⟨rfl, rfl, fun _ _ _ _ => ⟨rfl, rfl⟩⟩

/-- C10 (amended): the wrapper rejects for excessive row count exactly when
the error list is empty and rowCount() is truthy (non-null, non-zero) and
exceeds the limit; when rowCount() is 0 or null the rejection is skipped
and — provided the error list is empty and allRows() did not return null —
the wrapped callback still runs. -/
theorem wrapper_row_limit (errors : List String) (rowCount : Option ℕ)
    (allRowsAvailable : Bool) (rowLimit : ℕ) :
    (callbackWrapper errors rowCount allRowsAvailable rowLimit = WrapperOutcome.tooManyRows ↔
      errors = [] ∧ ∃ n, rowCount = some n ∧ 0 < n ∧ rowLimit < n) ∧
    (errors = [] → (rowCount = none ∨ rowCount = some 0) → allRowsAvailable = true →
      callbackWrapper errors rowCount allRowsAvailable rowLimit
        = WrapperOutcome.ranCallback) := by
  constructor
  · constructor
    · intro h
      unfold callbackWrapper at h
      by_cases he : 0 < errors.length
      · rw [if_pos he] at h
        exact absurd h (by simp)
      · rw [if_neg he] at h
        have herrs : errors = [] := List.eq_nil_of_length_eq_zero (by omega)
        by_cases hr : rowCountExceeds rowCount rowLimit = true
        · refine ⟨herrs, ?_⟩
          rcases rowCount with _ | n
          · simp [rowCountExceeds] at hr
          · simp only [rowCountExceeds, Bool.and_eq_true, bne_iff_ne, ne_eq,
              decide_eq_true_eq] at hr
            obtain ⟨hne, hlt⟩ := hr
            exact ⟨n, rfl, by omega, hlt⟩
        · rw [if_neg hr] at h
          split at h <;> simp at h
    · rintro ⟨herrs, n, hrc, hn, hlt⟩
      subst herrs
      subst hrc
      unfold callbackWrapper
      rw [if_neg (by simp), if_pos (by simp only [rowCountExceeds, Bool.and_eq_true,
        bne_iff_ne, ne_eq, decide_eq_true_eq]; omega)]
  · rintro herrs (hrc | hrc) ha <;> subst herrs <;> subst hrc <;>
      simp [callbackWrapper, rowCountExceeds, ha]

theorem wrapper_row_limit_witness :
    (callbackWrapper [] (some 0) true defaultRowLimit = WrapperOutcome.tooManyRows ↔
      ([] : List String) = [] ∧ ∃ n, (some 0 : Option ℕ) = some n ∧ 0 < n ∧ defaultRowLimit < n) ∧
    callbackWrapper [] (some 0) true defaultRowLimit = WrapperOutcome.ranCallback :=
  ⟨(wrapper_row_limit [] (some 0) true defaultRowLimit).1,
    (wrapper_row_limit [] (some 0) true defaultRowLimit).2 rfl (Or.inr rfl) rfl⟩

/-- C10 counterexample: with an empty error list, a null rowCount and a
null allRows() result (a cycle invalidated while fetching), the row-count
rejection is indeed skipped but the wrapped callback does not run — the
wrapper returns early instead. -/
theorem wrapper_nullRowCount_no_callback :
    callbackWrapper [] none false defaultRowLimit = WrapperOutcome.invalidated ∧
    WrapperOutcome.invalidated ≠ WrapperOutcome.ranCallback ∧
    WrapperOutcome.invalidated ≠ WrapperOutcome.tooManyRows := by
  exact ⟨rfl, by decide, by decide⟩

end Timeline
